import Mathlib

/-
Verification of the Copytrader replication and reconciliation engine.

Shallow Lean embedding of the core components:
  modules/order_aggregator.py   (OrderAggregator)
  modules/state_manager.py      (StateManager)
  modules/sync_logic.py         (main_event_loop)
  modules/sync_checker.py       (check_positions_sync, execute_pending_sync_actions)
  modules/order_handler.py      (check_and_set_sl, place_order_on_demo)
  copyer.py                     (process_aggregated_orders, main loop call sites)
  copytrader_v2/modules/file_utils.py (save_json_file)

Python strings are modelled as List Char, Decimal values as rationals with
explicit quantization functions mirroring the Decimal rounding modes used by
the source, dicts as insertion-ordered association lists, and the venue as an
oracle function supplied to each operation.
-/

set_option linter.unusedVariables false

namespace Copytrader

/-- Python strings, modelled as lists of characters. -/
abbrev Str := List Char

def strBuy : Str := String.toList "Buy"

def strSell : Str := String.toList "Sell"

def strOPEN : Str := String.toList "OPEN"

def strCLOSE : Str := String.toList "CLOSE"

def strTrade : Str := String.toList "Trade"

def strMarket : Str := String.toList "Market"

def strHedge : Str := String.toList "Hedge"

def strNone : Str := String.toList "None"

/-- Model of Python str.split with a single-character separator. -/
def splitOnChar (c : Char) : List Char → List (List Char)
  | [] => [[]]
  | x :: xs =>
    if x = c then
      [] :: splitOnChar c xs
    else
      match splitOnChar c xs with
      | [] => [[x]]
      | y :: ys => (x :: y) :: ys

/-- First-match lookup in an insertion-ordered association list (Python dict). -/
def alookup {α : Type} : List (Str × α) → Str → Option α
  | [], _ => none
  | (k, v) :: rest, key => if k = key then some v else alookup rest key

/-- Euclidean floor of a rational (rounds toward minus infinity). -/
def qfloor (q : ℚ) : ℤ := Int.ediv q.num (q.den : ℤ)

/-- Ceiling of a rational. -/
def qceil (q : ℚ) : ℤ := -qfloor (-q)

/-- Decimal ROUND_DOWN: round toward zero. -/
def truncQ (q : ℚ) : ℤ := if 0 ≤ q then qfloor q else qceil q

/-- Decimal ROUND_UP: round away from zero. -/
def roundUpQ (q : ℚ) : ℤ := if 0 ≤ q then qceil q else qfloor q

/-- Decimal ROUND_HALF_EVEN: round to nearest, ties to even. -/
def roundHalfEvenQ (q : ℚ) : ℤ :=
  let n := qfloor q
  let f := q - (n : ℚ)
  if f < 1 / 2 then n
  else if 1 / 2 < f then n + 1
  else if n % 2 = 0 then n else n + 1

/-- Decimal.quantize to 10^(-p) with ROUND_DOWN, as used for quantities. -/
def quantizeDown (p : ℕ) (q : ℚ) : ℚ := (truncQ (q * 10 ^ p) : ℚ) / 10 ^ p

/-- Decimal.quantize to 10^(-p) with the default ROUND_HALF_EVEN rounding. -/
def quantizeHE (p : ℕ) (q : ℚ) : ℚ := (roundHalfEvenQ (q * 10 ^ p) : ℚ) / 10 ^ p

/-- The value Decimal("1e-p"): one quantum at precision p. -/
def quantum (p : ℕ) : ℚ := 1 / 10 ^ p

/-- The opposite trade side: "Sell" if side is "Buy" else "Buy". -/
def flipSide (side : Str) : Str := if side = strBuy then strSell else strBuy

/-! ## Position/Order State Mapper (modules/state_manager.py) -/

/-- The in-memory position map: the key set of the state dict position_map.
The dict maps each key to True, so only the keys carry information. -/
abbrev PMap := List Str

/-- StateManager.get_mapped_position_key: the f-string "symbol-side". -/
def mappedPositionKey (symbol side : Str) : Str := symbol ++ '-' :: side

/-- StateManager.is_position_mapped. -/
def isPositionMapped (m : PMap) (symbol side : Str) : Prop :=
  mappedPositionKey symbol side ∈ m

instance (m : PMap) (symbol side : Str) : Decidable (isPositionMapped m symbol side) := by
  unfold isPositionMapped; infer_instance

/-- StateManager.map_position: insert the key unless already present. -/
def mapPosition (m : PMap) (symbol side : Str) : PMap :=
  if isPositionMapped m symbol side then m else m ++ [mappedPositionKey symbol side]

/-- StateManager.remove_mapping: delete the key when present. -/
def removeMapping (m : PMap) (symbol side : Str) : PMap :=
  if isPositionMapped m symbol side then m.erase (mappedPositionKey symbol side) else m

/-! ## Order Aggregator (modules/order_aggregator.py) -/

/-- The fill intent dict passed to OrderAggregator.add_fill. -/
structure FillData where
  symbol : Str
  side : Str
  action : Str
  qty : ℚ
  isIncrease : Bool
  positionSideForClose : Option Str
  deriving DecidableEq, Repr

/-- One accumulator bucket of OrderAggregator.pending_orders. -/
structure Bucket where
  totalQty : ℚ
  timestamp : ℚ
  isIncrease : Bool
  positionSideForClose : Option Str
  deriving DecidableEq, Repr

/-- The pending_orders dict, insertion ordered. -/
abbrev AggMap := List (Str × Bucket)

/-- The aggregation key f-string "symbol-side-action". -/
def aggKeyStr (symbol side action : Str) : Str :=
  symbol ++ '-' :: (side ++ '-' :: action)

/-- The aggregation key of a fill intent. -/
def aggKey (fd : FillData) : Str := aggKeyStr fd.symbol fd.side fd.action

/-- Add qty to an existing bucket (the += on total_qty). -/
def bumpQty (b : Bucket) (q : ℚ) : Bucket := { b with totalQty := b.totalQty + q }

/-- OrderAggregator.add_fill at wall-clock time now: create the bucket on the
first fill for the key (recording now), then accumulate the quantity. -/
def aggAdd (now : ℚ) (agg : AggMap) (fd : FillData) : AggMap :=
  match alookup agg (aggKey fd) with
  | some _ =>
    agg.map (fun kv => if kv.1 = aggKey fd then (kv.1, bumpQty kv.2 fd.qty) else kv)
  | none =>
    agg ++ [(aggKey fd, ⟨fd.qty, now, fd.isIncrease, fd.positionSideForClose⟩)]

/-- The three-way unpacking key.split with separator hyphen. Returns none when
the split does not produce exactly three parts (Python raises ValueError). -/
def keyParts (key : Str) : Option (Str × Str × Str) :=
  match splitOnChar '-' key with
  | [s, d, a] => some (s, d, a)
  | _ => none

/-- An aggregated order dict as produced by OrderAggregator.get_ready_orders. -/
structure AggOrder where
  symbol : Str
  side : Str
  action : Str
  qty : ℚ
  isIncrease : Bool
  positionSideForClose : Option Str
  deriving DecidableEq, Repr

/-- Build the order dict for one drained bucket. -/
def mkAggOrder (sda : Str × Str × Str) (b : Bucket) : AggOrder :=
  ⟨sda.1, sda.2.1, sda.2.2, b.totalQty, b.isIncrease, b.positionSideForClose⟩

/-- Convert the drained buckets to order dicts; none if any key fails the
three-way unpacking. -/
def drainOrders : List (Str × Bucket) → Option (List AggOrder)
  | [] => some []
  | kv :: rest =>
    match keyParts kv.1, drainOrders rest with
    | some sda, some os => some (mkAggOrder sda kv.2 :: os)
    | _, _ => none

/-- OrderAggregator.get_ready_orders at time now: remove and return every
bucket older than the aggregation window, keep the younger ones. -/
def getReadyOrders (now window : ℚ) (agg : AggMap) : Option (List AggOrder × AggMap) :=
  let ready := agg.filter (fun kv => decide (window < now - kv.2.timestamp))
  let rest := agg.filter (fun kv => !(decide (window < now - kv.2.timestamp)))
  match drainOrders ready with
  | some orders => some (orders, rest)
  | none => none

/-- A pending action summary from OrderAggregator.peek_pending_actions. -/
structure PendAction where
  symbol : Str
  side : Option Str
  action : Str
  deriving DecidableEq, Repr

/-- Summaries for the still-pending buckets; none on a malformed key. -/
def peekEntries : List (Str × Bucket) → Option (List PendAction)
  | [] => some []
  | kv :: rest =>
    match keyParts kv.1, peekEntries rest with
    | some sda, some ps =>
      let actionSide : Option Str :=
        if sda.2.2 = strCLOSE then kv.2.positionSideForClose else some sda.2.1
      some (⟨sda.1, actionSide, sda.2.2⟩ :: ps)
    | _, _ => none

/-- OrderAggregator.peek_pending_actions at time now: summarize the buckets
still inside the aggregation window without removing them. -/
def peekPendingActions (now window : ℚ) (agg : AggMap) : Option (List PendAction) :=
  peekEntries (agg.filter (fun kv => decide (now - kv.2.timestamp ≤ window)))

/-- The accumulated quantity stored under a key, when the key is pending. -/
def lookupTotal (agg : AggMap) (key : Str) : Option ℚ :=
  (alookup agg key).map Bucket.totalQty

/-! ## Replication Action Executor (copyer.py process_aggregated_orders) -/

/-- The order parameter dict sent to /v5/order/create (the fields the core
decides; category and orderType are fixed strings in the source). -/
structure OrderParams where
  symbol : Str
  side : Str
  qty : ℚ
  reduceOnly : Bool
  orderType : Str
  positionIdx : ℕ
  deriving DecidableEq, Repr

/-- The destination venue as an oracle: place_order_on_demo returns True
exactly when the venue accepted the order. -/
abbrev Venue := OrderParams → Bool

/-- order_handler._determine_position_idx from the account-mode setting. -/
def determinePositionIdx (demoMode : Str) (side : Str) : ℕ :=
  if demoMode = strHedge then (if side = strBuy then 1 else 2) else 0

/-- A domain event appended to cycle_events. -/
inductive Ev where
  | openEv (symbol side : Str) (qty : ℚ) (isIncrease : Bool)
  | closeEv (symbol side : Str) (qty : ℚ)
  deriving DecidableEq, Repr

/-- The venue parameters of the OPEN branch of process_aggregated_orders. -/
def openParams (demoMode : Str) (o : AggOrder) : OrderParams :=
  ⟨o.symbol, o.side, o.qty, false, strMarket, determinePositionIdx demoMode o.side⟩

/-- The position side read from the order dict of a CLOSE action; a missing
value renders as the string None in the downstream f-string keys. -/
def closePositionSide (o : AggOrder) : Str := o.positionSideForClose.getD strNone

/-- The venue parameters of the CLOSE branch of process_aggregated_orders. -/
def closeParams (demoMode : Str) (o : AggOrder) : OrderParams :=
  ⟨o.symbol, o.side, o.qty, true, strMarket,
    determinePositionIdx demoMode (closePositionSide o)⟩

/-- One iteration of the order loop in process_aggregated_orders: skip
non-positive quantities, place the order, and update the position map and the
event list only when the venue accepted it. Leverage mirroring and the sleeps
have no effect on the position map and are elided. -/
def processOrder (venue : Venue) (demoMode : Str) (m : PMap) (o : AggOrder) :
    PMap × List Ev :=
  if o.qty ≤ 0 then (m, [])
  else if o.action = strOPEN then
    if venue (openParams demoMode o) then
      (mapPosition m o.symbol o.side, [Ev.openEv o.symbol o.side o.qty o.isIncrease])
    else (m, [])
  else if o.action = strCLOSE then
    if venue (closeParams demoMode o) then
      (removeMapping m o.symbol (closePositionSide o),
        [Ev.closeEv o.symbol (closePositionSide o) o.qty])
    else (m, [])
  else (m, [])

/-- copyer.process_aggregated_orders over the whole batch. -/
def processAggregatedOrders (venue : Venue) (demoMode : Str) (m : PMap) :
    List AggOrder → PMap × List Ev
  | [] => (m, [])
  | o :: rest =>
    let r1 := processOrder venue demoMode m o
    let r2 := processAggregatedOrders venue demoMode r1.1 rest
    (r2.1, r1.2 ++ r2.2)

/-! ## Execution Event Poller (modules/sync_logic.py main_event_loop) -/

/-- A source-account fill from /v5/execution/list. The venue reports fills
newest first; executionId is modelled as a natural number. -/
structure SrcFill where
  execId : ℕ
  symbol : Str
  side : Str
  execQty : ℚ
  closedSize : ℚ
  execType : Str
  deriving DecidableEq, Repr

/-- The cursor slice of main_event_loop: collect fills until the cursor id is
met, report no activity when nothing is newer, otherwise return the candidate
new cursor (the newest fetched id) and the new fills in chronological order. -/
def pollCore (fills : List SrcFill) (lastKnownId : Option ℕ) :
    Bool × Option ℕ × List SrcFill :=
  match lastKnownId with
  | none => (false, none, [])
  | some lid =>
    match fills with
    | [] => (false, none, [])
    | f0 :: _ =>
      let nf := fills.takeWhile (fun f => f.execId != lid)
      if nf.isEmpty then (false, none, [])
      else (true, some f0.execId, nf.reverse)

/-- The settings consumed by the per-fill body of main_event_loop. -/
structure CopyCfg where
  multiplier : ℚ
  qtyPrecision : ℕ
  symbolsToCopy : Option (List Str)
  deriving DecidableEq, Repr

/-- The truthy symbol filter: skip the fill when symbols_to_copy is a
non-empty list that does not contain the symbol. -/
def symbolFiltered (cfg : CopyCfg) (sym : Str) : Bool :=
  match cfg.symbolsToCopy with
  | some l => decide (l ≠ []) && decide (sym ∉ l)
  | none => false

/-- The per-fill body of main_event_loop: skip non-Trade executions and
filtered symbols; for a closing fill (closedSize > 0) add a CLOSE intent only
when the opposite-side position is mapped; otherwise add an OPEN intent with
the is_increase flag from the map; drop intents whose scaled quantity rounds
to zero. -/
def processFill (cfg : CopyCfg) (m : PMap) (agg : AggMap) (now : ℚ)
    (fill : SrcFill) : AggMap :=
  if fill.execType ≠ strTrade then agg
  else if symbolFiltered cfg fill.symbol then agg
  else if 0 < fill.closedSize then
    let positionSide := flipSide fill.side
    if isPositionMapped m fill.symbol positionSide then
      let demoQty := quantizeDown cfg.qtyPrecision (fill.closedSize * cfg.multiplier)
      if demoQty = 0 then agg
      else aggAdd now agg ⟨fill.symbol, fill.side, strCLOSE, demoQty, false, some positionSide⟩
    else agg
  else
    let isIncrease := isPositionMapped m fill.symbol fill.side
    let demoQty := quantizeDown cfg.qtyPrecision (fill.execQty * cfg.multiplier)
    if demoQty = 0 then agg
    else aggAdd now agg ⟨fill.symbol, fill.side, strOPEN, demoQty, decide isIncrease, none⟩

/-! ## Drift Reconciler (modules/sync_checker.py) -/

/-- One venue position entry (symbol, side, size). -/
structure PosEntry where
  symbol : Str
  side : Str
  size : ℚ
  deriving DecidableEq, Repr

/-- The f-string dict key "symbol-side" of a position. -/
def posKey (p : PosEntry) : Str := p.symbol ++ '-' :: p.side

/-- The dict comprehension building the keyed snapshot of the positions with
positive size. -/
def snapKeyed (ps : List PosEntry) : List (Str × PosEntry) :=
  (ps.filter (fun p => decide (0 < p.size))).map (fun p => (posKey p, p))

/-- Discrepancy type tags of check_positions_sync. -/
inductive DiscType where
  | sizeMismatch
  | missingOnDemo
  | extraOnDemo
  deriving DecidableEq, Repr

/-- A discrepancy record as built by check_positions_sync. Quantities that
the source renders through an f-string at qty precision are stored as the
correspondingly rounded rationals. -/
structure Disc where
  dtype : DiscType
  symbol : Str
  side : Str
  expectedDemoQty : Option ℚ
  actualDemoQty : Option ℚ
  deriving DecidableEq, Repr

/-- The discrepancy computation of check_positions_sync: walk the live
snapshot classifying size_mismatch (deviation strictly beyond one quantum)
and missing_on_demo, then the demo snapshot classifying extra_on_demo. -/
def computeDiscrepancies (mult : ℚ) (p : ℕ)
    (live demo : List (Str × PosEntry)) : List Disc :=
  (live.filterMap (fun kv =>
    match alookup demo kv.1 with
    | some dp =>
      if quantum p < |dp.size - quantizeHE p (kv.2.size * mult)| then
        some ⟨DiscType.sizeMismatch, kv.2.symbol, kv.2.side,
          some (quantizeHE p (kv.2.size * mult)), some (quantizeHE p dp.size)⟩
      else none
    | none =>
      some ⟨DiscType.missingOnDemo, kv.2.symbol, kv.2.side,
        some (quantizeHE p (kv.2.size * mult)), none⟩))
  ++ demo.filterMap (fun kv =>
    match alookup live kv.1 with
    | some _ => none
    | none => some ⟨DiscType.extraOnDemo, kv.2.symbol, kv.2.side, none, some kv.2.size⟩)

/-- The corrective order built for one discrepancy by the FULL_SYNC branch of
execute_pending_sync_actions; none when the size mismatch delta is within one
quantum. -/
def healOrder (demoMode : Str) (p : ℕ) (d : Disc) : Option OrderParams :=
  let positionIdx := determinePositionIdx demoMode d.side
  match d.dtype with
  | DiscType.extraOnDemo =>
    some ⟨d.symbol, flipSide d.side, d.actualDemoQty.getD 0, true, strMarket, positionIdx⟩
  | DiscType.missingOnDemo =>
    some ⟨d.symbol, d.side, d.expectedDemoQty.getD 0, false, strMarket, positionIdx⟩
  | DiscType.sizeMismatch =>
    let delta := d.expectedDemoQty.getD 0 - d.actualDemoQty.getD 0
    if |delta| < quantum p then none
    else
      some ⟨d.symbol, if 0 < delta then d.side else flipSide d.side, |delta|,
        decide (delta < 0), strMarket, positionIdx⟩

/-! ## Stop-Loss Tier Calculator (modules/order_handler.py check_and_set_sl) -/

/-- Venue responses to the /v5/position/trading-stop call, by the branches of
the source: success, ret code 34040 or a not-modified message, the
too-close-to-price family (110043, 10001, too close, 10 pcnt), any other
error, and a missing response. -/
inductive SlResp where
  | ok
  | notModified
  | tooClose
  | otherErr
  | noResp
  deriving DecidableEq, Repr

/-- The trading-stop venue as an oracle of the attempted stop price. -/
abbrev SlVenue := ℚ → SlResp

/-- The candidate stop price of one tier: price delta abs(-abs(t))/size,
entry minus the delta for Buy and plus for Sell, quantized to the tick size
with ROUND_DOWN for Buy and ROUND_UP for Sell. -/
def slCandidate (side : Str) (entry size tick t : ℚ) : ℚ :=
  let priceChangePerUnit := |(-|t|)| / size
  let ideal :=
    if side = strBuy then entry - priceChangePerUnit else entry + priceChangePerUnit
  (if side = strBuy then (truncQ (ideal / tick) : ℚ) else (roundUpQ (ideal / tick) : ℚ))
    * tick

/-- The tier loop of check_and_set_sl: skip non-positive candidates and the
candidate equal to the stop already set, try the venue, move to the next
narrower tier only on the too-close family, and stop with the accepted
(tier, price) pair on success. -/
def slTierLoop (venue : SlVenue) (currentSl : Option ℚ) (side : Str)
    (entry size tick : ℚ) : List ℚ → Option (ℚ × ℚ)
  | [] => none
  | t :: ts =>
    let q := slCandidate side entry size tick t
    if q ≤ 0 then slTierLoop venue currentSl side entry size tick ts
    else if currentSl = some q then slTierLoop venue currentSl side entry size tick ts
    else
      match venue q with
      | SlResp.ok => some (t, q)
      | SlResp.notModified => none
      | SlResp.tooClose => slTierLoop venue currentSl side entry size tick ts
      | SlResp.otherErr => none
      | SlResp.noResp => none

/-- check_and_set_sl: guard on positive size and a configured tier list,
keep an existing stop that is already within 1.1 times the widest tier
distance, then run the tier loop. Returns the accepted (loss tier, stop
price) pair, none when no stop was set. -/
def checkAndSetSl (venue : SlVenue) (currentSl : Option ℚ) (side : Str)
    (entry size tick : ℚ) (tiers : List ℚ) : Option (ℚ × ℚ) :=
  if size ≤ 0 ∨ tiers = [] then none
  else
    let widest := tiers.head?.getD 0
    let keepCurrent : Bool :=
      match currentSl with
      | some c => decide (0 < c) && decide (|entry - c| ≤ (|widest| / size) * (11 / 10))
      | none => false
    if keepCurrent then none
    else slTierLoop venue currentSl side entry size tick tiers

/-! ## Persistent State Store (state_manager.py save,
copytrader_v2/modules/file_utils.py save_json_file) -/

/-- A file content. -/
abbrev Doc := Str

/-- The files touched by a save: the target path, the temporary file of the
atomic path, and the backup copy. -/
structure Fs where
  target : Option Doc
  temp : Option Doc
  backup : Option Doc
  deriving DecidableEq, Repr

/-- Primitive file-system steps of the two save routines. A crash may happen
between any two steps. -/
inductive FsOp where
  | truncTarget
  | writeTarget (c : Char)
  | copyBackup
  | createTemp
  | writeTemp (c : Char)
  | renameTemp
  deriving DecidableEq, Repr

/-- Effect of one primitive step. -/
def applyOp (fs : Fs) : FsOp → Fs
  | FsOp.truncTarget => { fs with target := some [] }
  | FsOp.writeTarget c => { fs with target := some ((fs.target.getD []) ++ [c]) }
  | FsOp.copyBackup => { fs with backup := fs.target }
  | FsOp.createTemp => { fs with temp := some [] }
  | FsOp.writeTemp c => { fs with temp := some ((fs.temp.getD []) ++ [c]) }
  | FsOp.renameTemp =>
    match fs.temp with
    | some d => { fs with target := some d, temp := none }
    | none => fs

/-- Run a sequence of steps. -/
def runOps (fs : Fs) (l : List FsOp) : Fs := l.foldl applyOp fs

/-- StateManager.save: open the state file for writing (truncating it) and
stream the JSON document into it directly. -/
def stateManagerSaveOps (doc : Doc) : List FsOp :=
  FsOp.truncTarget :: doc.map FsOp.writeTarget

/-- save_json_file: optionally copy the existing file to a backup, stream the
JSON document into a fresh temporary file, then rename it over the target. -/
def saveJsonFileOps (backup targetExists : Bool) (doc : Doc) : List FsOp :=
  (if backup && targetExists then [FsOp.copyBackup] else [])
    ++ (FsOp.createTemp :: doc.map FsOp.writeTemp) ++ [FsOp.renameTemp]

/-! ## The deep-sync call site (copyer.py main, modules/sync_checker.py) -/

/-- The parameter list of check_positions_sync as defined in
modules/sync_checker.py. -/
def checkPositionsSyncParams : List Str :=
  [String.toList "config_data", String.toList "data_dir", String.toList "sync_trigger"]

/-- Python call binding for a function without defaults or a **kwargs
catch-all: every keyword must name a parameter not already filled
positionally, and every remaining parameter must receive a keyword. -/
def callBindsOk (params : List Str) (npos : ℕ) (kwargs : List Str) : Bool :=
  decide (npos ≤ params.length)
    && (kwargs.all fun k => decide (k ∈ params.drop npos))
    && ((params.drop npos).all fun q => decide (q ∈ kwargs))

/-- The deep-sync call in copyer.main: two positional arguments. -/
def copyerDeepSyncPositional : ℕ := 2

/-- The deep-sync call in copyer.main: the keyword pending_actions. -/
def copyerDeepSyncKwargs : List Str := [String.toList "pending_actions"]

/-! ## Helper lemmas -/

theorem splitOnChar_of_not_mem {c : Char} {l : List Char} (h : c ∉ l) :
    splitOnChar c l = [l] := by
  induction l with
  | nil => rfl
  | cons x xs ih =>
    have hx : x ≠ c := fun hxc => h (hxc ▸ List.mem_cons_self x xs)
    have hxs : c ∉ xs := fun hm => h (List.mem_cons_of_mem x hm)
    simp [splitOnChar, hx, ih hxs]

theorem splitOnChar_append {c : Char} {s r : List Char} (h : c ∉ s) :
    splitOnChar c (s ++ c :: r) = s :: splitOnChar c r := by
  induction s with
  | nil => simp [splitOnChar]
  | cons x xs ih =>
    have hx : x ≠ c := fun hxc => h (hxc ▸ List.mem_cons_self x xs)
    have hxs : c ∉ xs := fun hm => h (List.mem_cons_of_mem x hm)
    have ihx := ih hxs
    simp only [List.cons_append, splitOnChar, if_neg hx, List.append_eq, ihx]

theorem splitOnChar_aggKeyStr {s d a : Str} (hs : '-' ∉ s) (hd : '-' ∉ d)
    (ha : '-' ∉ a) : splitOnChar '-' (aggKeyStr s d a) = [s, d, a] := by
  unfold aggKeyStr
  rw [splitOnChar_append hs, splitOnChar_append hd, splitOnChar_of_not_mem ha]

theorem keyParts_aggKeyStr {s d a : Str} (hs : '-' ∉ s) (hd : '-' ∉ d)
    (ha : '-' ∉ a) : keyParts (aggKeyStr s d a) = some (s, d, a) := by
  unfold keyParts
  rw [splitOnChar_aggKeyStr hs hd ha]

theorem pairKey_inj {s1 d1 s2 d2 : Str} (h1 : '-' ∉ s1) (h2 : '-' ∉ s2)
    (h : s1 ++ '-' :: d1 = s2 ++ '-' :: d2) : s1 = s2 ∧ d1 = d2 := by
  have hsplit := congrArg (splitOnChar '-') h
  rw [splitOnChar_append h1, splitOnChar_append h2] at hsplit
  have hs : s1 = s2 := (List.cons.injEq _ _ _ _ ▸ hsplit).1
  subst hs
  have := List.append_cancel_left h
  exact ⟨rfl, (List.cons.injEq _ _ _ _ ▸ this).2⟩

theorem alookup_cons {α : Type} (k0 : Str) (v0 : α) (rest : List (Str × α))
    (key : Str) :
    alookup ((k0, v0) :: rest) key = if k0 = key then some v0 else alookup rest key :=
  rfl

theorem alookup_append_of_none {α : Type} {l1 : List (Str × α)} {k : Str}
    (l2 : List (Str × α)) (h : alookup l1 k = none) :
    alookup (l1 ++ l2) k = alookup l2 k := by
  induction l1 with
  | nil => rfl
  | cons kv rest ih =>
    obtain ⟨k0, v0⟩ := kv
    by_cases hk : k0 = k
    · rw [alookup_cons, if_pos hk] at h
      exact absurd h (by simp)
    · rw [alookup_cons, if_neg hk] at h
      rw [List.cons_append, alookup_cons, if_neg hk]
      exact ih h

theorem alookup_map_update {α : Type} (f : α → α) (key : Str)
    (l : List (Str × α)) :
    alookup (l.map (fun kv => if kv.1 = key then (kv.1, f kv.2) else kv)) key
      = (alookup l key).map f := by
  induction l with
  | nil => rfl
  | cons kv rest ih =>
    obtain ⟨k0, v0⟩ := kv
    by_cases hk : k0 = key
    · have hhead : (if (k0, v0).1 = key then ((k0, v0).1, f (k0, v0).2) else (k0, v0))
          = (k0, f v0) := by simp [hk]
      rw [List.map_cons, hhead, alookup_cons, alookup_cons, if_pos hk, if_pos hk]
      rfl
    · have hhead : (if (k0, v0).1 = key then ((k0, v0).1, f (k0, v0).2) else (k0, v0))
          = (k0, v0) := by simp [hk]
      rw [List.map_cons, hhead, alookup_cons, alookup_cons, if_neg hk, if_neg hk]
      exact ih

theorem mem_of_alookup_some {α : Type} {l : List (Str × α)} {k : Str} {v : α}
    (h : alookup l k = some v) : (k, v) ∈ l := by
  induction l with
  | nil => exact absurd h (by simp [alookup])
  | cons kv rest ih =>
    obtain ⟨k0, v0⟩ := kv
    by_cases hk : k0 = k
    · rw [alookup_cons, if_pos hk] at h
      have hv : v0 = v := by injection h
      rw [hk, hv]
      exact List.mem_cons_self _ _
    · rw [alookup_cons, if_neg hk] at h
      exact List.mem_cons_of_mem _ (ih h)

theorem alookup_of_mem_nodup {α : Type} {l : List (Str × α)} {k : Str} {v : α}
    (hnd : (l.map Prod.fst).Nodup) (hm : (k, v) ∈ l) : alookup l k = some v := by
  induction l with
  | nil => exact absurd hm (by simp)
  | cons kv rest ih =>
    obtain ⟨k0, v0⟩ := kv
    simp only [List.map_cons, List.nodup_cons] at hnd
    rcases List.mem_cons.mp hm with heq | hmem
    · have hk : k = k0 := congrArg Prod.fst heq
      have hv : v = v0 := congrArg Prod.snd heq
      rw [alookup_cons, if_pos hk.symm, hv]
    · have hk0 : k0 ≠ k := by
        intro hk
        subst hk
        exact hnd.1 (List.mem_map.mpr ⟨(k0, v), hmem, rfl⟩)
      rw [alookup_cons, if_neg hk0]
      exact ih hnd.2 hmem

/-- add_fill bumps the stored total of its key by the fill quantity,
creating the bucket when absent. -/
theorem lookupTotal_aggAdd (now : ℚ) (agg : AggMap) (fd : FillData) :
    lookupTotal (aggAdd now agg fd) (aggKey fd)
      = some ((lookupTotal agg (aggKey fd)).getD 0 + fd.qty) := by
  unfold lookupTotal aggAdd
  cases h : alookup agg (aggKey fd) with
  | none =>
    rw [alookup_append_of_none _ h]
    simp [alookup, bumpQty]
  | some b =>
    rw [alookup_map_update (fun v => bumpQty v fd.qty) (aggKey fd) agg, h]
    simp [bumpQty]

/-! ## Claims -/

/-- Claim C8: the accumulated total quantity of an aggregation bucket is
independent of the order of the fills: adding quantities q1 then q2 under the
same (symbol, side, action) key yields the same stored total as adding q2
then q1, from any starting aggregator state. -/
theorem C8_addFill_total_commutative (agg : AggMap) (t1 t2 : ℚ) (fd : FillData)
    (q1 q2 : ℚ) :
    lookupTotal (aggAdd t2 (aggAdd t1 agg { fd with qty := q1 }) { fd with qty := q2 })
        (aggKey fd)
      = lookupTotal (aggAdd t2 (aggAdd t1 agg { fd with qty := q2 }) { fd with qty := q1 })
        (aggKey fd) := by
  have hkey1 : aggKey { fd with qty := q1 } = aggKey fd := rfl
  have hkey2 : aggKey { fd with qty := q2 } = aggKey fd := rfl
  have h1 := lookupTotal_aggAdd t2 (aggAdd t1 agg { fd with qty := q1 }) { fd with qty := q2 }
  have h2 := lookupTotal_aggAdd t1 agg { fd with qty := q1 }
  have h3 := lookupTotal_aggAdd t2 (aggAdd t1 agg { fd with qty := q2 }) { fd with qty := q1 }
  have h4 := lookupTotal_aggAdd t1 agg { fd with qty := q2 }
  rw [hkey1] at h2 h3
  rw [hkey2] at h1 h4
  rw [h1, h2, h3, h4]
  simp only [Option.getD_some, Option.some.injEq]
  ring

/-- Claim C9: for hyphen-free symbol, side and action strings, the aggregation
key "symbol-side-action" built by add_fill is split back by three-way
unpacking (as done in get_ready_orders and peek_pending_actions) into exactly
the original triple; and the hyphen-free precondition is necessary, since the
unpacking fails on a symbol containing a hyphen. -/
theorem C9_agg_key_roundtrip :
    (∀ s d a : Str, '-' ∉ s → '-' ∉ d → '-' ∉ a →
      keyParts (aggKeyStr s d a) = some (s, d, a))
    ∧ keyParts (aggKeyStr (String.toList "BTC-PERP") strBuy strOPEN) = none := by
  constructor
  · exact fun s d a hs hd ha => keyParts_aggKeyStr hs hd ha
  · decide

/-- Witness for C9 at a concrete hyphen-free key. -/
theorem C9_agg_key_roundtrip_witness :
    keyParts (aggKeyStr (String.toList "BTCUSDT") strBuy strOPEN)
      = some (String.toList "BTCUSDT", strBuy, strOPEN) :=
  C9_agg_key_roundtrip.1 _ _ _ (by decide) (by decide) (by decide)

/-- Claim C7: a drain returns and removes exactly the buckets older than the
aggregation window, each converted to one action carrying the accumulated
total, and leaves younger buckets buffered: two fills of quantities q1 and q2
added under one (symbol, side, OPEN) key within the window drain as a single
action with quantity q1 + q2, while a younger bucket under a different key
stays pending. -/
theorem C7_drain_aggregates_ready_buckets
    (window t0 t1 t3 now q1 q2 q3 : ℚ) (symA sideA symB sideB : Str)
    (incA incB : Bool) (psA psB : Option Str)
    (hsA : '-' ∉ symA) (hdA : '-' ∉ sideA)
    (hKeyNe : aggKeyStr symA sideA strOPEN ≠ aggKeyStr symB sideB strOPEN)
    (hwithin : t1 - t0 ≤ window)
    (hold : window < now - t0) (hyoung : now - t3 ≤ window) :
    getReadyOrders now window
      (aggAdd t3
        (aggAdd t1 (aggAdd t0 [] ⟨symA, sideA, strOPEN, q1, incA, psA⟩)
          ⟨symA, sideA, strOPEN, q2, incA, psA⟩)
        ⟨symB, sideB, strOPEN, q3, incB, psB⟩)
    = some ([⟨symA, sideA, strOPEN, q1 + q2, incA, psA⟩],
        [(aggKeyStr symB sideB strOPEN, ⟨q3, t3, incB, psB⟩)]) := by
  have hOPEN : ('-' ∉ strOPEN) := by decide
  have hyoung2 : ¬ (window < now - t3) := not_lt.mpr hyoung
  have e1 : aggAdd t0 [] (⟨symA, sideA, strOPEN, q1, incA, psA⟩ : FillData)
      = [(aggKeyStr symA sideA strOPEN, ⟨q1, t0, incA, psA⟩)] := rfl
  have e2 : aggAdd t1 [(aggKeyStr symA sideA strOPEN, (⟨q1, t0, incA, psA⟩ : Bucket))]
        (⟨symA, sideA, strOPEN, q2, incA, psA⟩ : FillData)
      = [(aggKeyStr symA sideA strOPEN, ⟨q1 + q2, t0, incA, psA⟩)] := by
    simp [aggAdd, alookup_cons, aggKey, bumpQty]
  have e3 : aggAdd t3 [(aggKeyStr symA sideA strOPEN, (⟨q1 + q2, t0, incA, psA⟩ : Bucket))]
        (⟨symB, sideB, strOPEN, q3, incB, psB⟩ : FillData)
      = [(aggKeyStr symA sideA strOPEN, ⟨q1 + q2, t0, incA, psA⟩),
         (aggKeyStr symB sideB strOPEN, ⟨q3, t3, incB, psB⟩)] := by
    simp [aggAdd, alookup, alookup_cons, aggKey, hKeyNe]
  rw [e1, e2, e3]
  have hd1 : decide (window < now - t0) = true := decide_eq_true hold
  have hd3 : decide (window < now - t3) = false := decide_eq_false hyoung2
  simp only [getReadyOrders, List.filter, hd1, hd3, Bool.not_true, Bool.not_false]
  simp [drainOrders, keyParts_aggKeyStr hsA hdA hOPEN, mkAggOrder]

/-- Witness for C7: fills of 0.3 and 0.2 on BTCUSDT-Buy-OPEN at times 0 and 1
and a fill of 1 on ETHUSDT-Sell-OPEN at time 9, drained at time 10 with a
3-second window, yield one BTCUSDT action of quantity 0.5 and keep the
ETHUSDT bucket pending. -/
theorem C7_drain_aggregates_ready_buckets_witness :
    getReadyOrders 10 3
      (aggAdd 9
        (aggAdd 1
          (aggAdd 0 [] ⟨String.toList "BTCUSDT", strBuy, strOPEN, 3 / 10, false, none⟩)
          ⟨String.toList "BTCUSDT", strBuy, strOPEN, 2 / 10, false, none⟩)
        ⟨String.toList "ETHUSDT", strSell, strOPEN, 1, false, none⟩)
    = some ([⟨String.toList "BTCUSDT", strBuy, strOPEN, 3 / 10 + 2 / 10, false, none⟩],
        [(aggKeyStr (String.toList "ETHUSDT") strSell strOPEN, ⟨1, 9, false, none⟩)]) :=
  C7_drain_aggregates_ready_buckets 3 0 1 9 10 (3 / 10) (2 / 10) 1
    (String.toList "BTCUSDT") strBuy (String.toList "ETHUSDT") strSell
    false false none none
    (by decide) (by decide) (by decide) (by norm_num) (by norm_num) (by norm_num)

/-- With a venue that rejects every order, one executor iteration leaves the
position map untouched and emits no event. -/
theorem processOrder_rejected (venue : Venue) (demoMode : Str) (m : PMap)
    (o : AggOrder) (hv : ∀ p, venue p = false) :
    processOrder venue demoMode m o = (m, []) := by
  simp [processOrder, hv]

/-- Claim C1: for every aggregated action handled by
process_aggregated_orders, the position map is updated (map_position on OPEN,
remove_mapping on CLOSE) if and only if place_order_on_demo reported that the
destination venue accepted the order; when the venue rejects, the map after
the attempt equals the map before it, and a batch of rejected orders leaves
the map exactly unchanged. -/
theorem C1_executor_updates_map_iff_venue_confirms
    (venue : Venue) (demoMode : Str) (m : PMap) (o : AggOrder) (hq : 0 < o.qty) :
    (o.action = strOPEN →
      (processOrder venue demoMode m o).1
        = if venue (openParams demoMode o) then mapPosition m o.symbol o.side else m)
    ∧ (o.action = strCLOSE →
      (processOrder venue demoMode m o).1
        = if venue (closeParams demoMode o) then
            removeMapping m o.symbol (closePositionSide o)
          else m)
    ∧ (∀ orders : List AggOrder, (∀ p, venue p = false) →
      (processAggregatedOrders venue demoMode m orders).1 = m) := by
  refine ⟨?_, ?_, ?_⟩
  · intro hOpen
    simp only [processOrder, if_neg (not_le.mpr hq), hOpen, if_pos rfl]
    by_cases hv : venue (openParams demoMode o) <;> simp [hv, hOpen]
  · intro hClose
    have hno : o.action ≠ strOPEN := by rw [hClose]; decide
    simp only [processOrder, if_neg (not_le.mpr hq), if_neg hno, hClose, if_pos rfl]
    by_cases hv : venue (closeParams demoMode o) <;>
      simp [hv, hClose, show strCLOSE ≠ strOPEN by decide]
  · intro orders hv
    induction orders with
    | nil => rfl
    | cons o1 rest ih =>
      simp [processAggregatedOrders, processOrder_rejected venue demoMode m o1 hv, ih]

/-- Witness for C1: an accepted OPEN order on an empty map maps its
(symbol, side) key. -/
theorem C1_executor_updates_map_iff_venue_confirms_witness :
    (processOrder (fun _ => true) [] []
        ⟨String.toList "BTCUSDT", strBuy, strOPEN, 1, false, none⟩).1
      = [mappedPositionKey (String.toList "BTCUSDT") strBuy] := by
  have h := (C1_executor_updates_map_iff_venue_confirms (fun _ => true) [] []
    ⟨String.toList "BTCUSDT", strBuy, strOPEN, 1, false, none⟩ (by norm_num)).1 rfl
  rw [h]
  decide

/-- Claim C10: a polled closing fill (closedSize > 0) produces a CLOSE intent
in the aggregator only when the position map contains (symbol, opposite of
the fill side); for an unmapped position the fill is skipped entirely and the
aggregator is unchanged. When it is mapped, the execution is a Trade, the
symbol passes the filter and the scaled quantity does not round to zero, the
CLOSE intent for the opposite position side is added. -/
theorem C10_close_intent_only_when_mapped
    (cfg : CopyCfg) (m : PMap) (agg : AggMap) (now : ℚ) (fill : SrcFill)
    (hclosing : 0 < fill.closedSize) :
    (¬ isPositionMapped m fill.symbol (flipSide fill.side) →
      processFill cfg m agg now fill = agg)
    ∧ (fill.execType = strTrade → symbolFiltered cfg fill.symbol = false →
      isPositionMapped m fill.symbol (flipSide fill.side) →
      quantizeDown cfg.qtyPrecision (fill.closedSize * cfg.multiplier) ≠ 0 →
      processFill cfg m agg now fill
        = aggAdd now agg ⟨fill.symbol, fill.side, strCLOSE,
            quantizeDown cfg.qtyPrecision (fill.closedSize * cfg.multiplier),
            false, some (flipSide fill.side)⟩) := by
  constructor
  · intro hnm
    by_cases ht : fill.execType = strTrade
    · by_cases hf : symbolFiltered cfg fill.symbol
      · simp [processFill, ht, hf]
      · simp [processFill, ht, hf, hclosing, hnm]
    · simp [processFill, ht]
  · intro ht hf hm hq
    simp [processFill, ht, hf, hclosing, hm, hq]

/-- Witness for C10: a closing fill on an unmapped symbol leaves an empty
aggregator empty. -/
theorem C10_close_intent_only_when_mapped_witness :
    processFill ⟨1, 1, none⟩ [] [] 0
      ⟨7, String.toList "BTCUSDT", strBuy, 0, 1, strTrade⟩ = [] :=
  (C10_close_intent_only_when_mapped ⟨1, 1, none⟩ [] [] 0
    ⟨7, String.toList "BTCUSDT", strBuy, 0, 1, strTrade⟩ (by norm_num)).1 (by decide)

/-- On a newest-first fill list that contains the cursor, collecting fills
until the cursor is met selects exactly the fills with a newer execution id. -/
theorem takeWhile_cursor_eq_filter {lid : ℕ} :
    ∀ {fills : List SrcFill},
      List.Pairwise (fun a b => b.execId < a.execId) fills →
      lid ∈ fills.map SrcFill.execId →
      fills.takeWhile (fun f => f.execId != lid)
        = fills.filter (fun f => decide (lid < f.execId)) := by
  intro fills
  induction fills with
  | nil =>
    intro _ hmem
    exact absurd hmem (by simp)
  | cons f rest ih =>
    intro hp hmem
    have hrest : ∀ x ∈ rest, x.execId < f.execId := (List.pairwise_cons.mp hp).1
    by_cases hf : f.execId = lid
    · have hnone : rest.filter (fun g => decide (lid < g.execId)) = [] := by
        rw [List.filter_eq_nil_iff]
        intro a ha
        simp only [decide_eq_true_eq, not_lt]
        have := hrest a ha
        omega
      have hstop : (f.execId != lid) = false := by simp [hf]
      have hkeep : decide (lid < f.execId) = false := by
        simp [hf]
      simp [List.takeWhile, List.filter, hstop, hkeep, hnone]
    · have hlid : lid ∈ rest.map SrcFill.execId := by
        have hcases : lid = f.execId ∨ ∃ a ∈ rest, a.execId = lid := by simpa using hmem
        rcases hcases with heq | ⟨a, ha, hae⟩
        · exact absurd heq.symm hf
        · exact List.mem_map.mpr ⟨a, ha, hae⟩
      have hlt : lid < f.execId := by
        rcases List.mem_map.mp hlid with ⟨x, hx, hxe⟩
        have := hrest x hx
        omega
      have hgo : (f.execId != lid) = true := by simp [hf]
      simp [List.takeWhile, List.filter, hgo, decide_eq_true hlt,
        ih (List.pairwise_cons.mp hp).2 hlid]

/-- Claim C4: given the last cursor, one polling pass hands downstream, in
chronological order, exactly the fetched fills whose execution id is newer
than the cursor; when the newest fetched id equals the cursor the pass
reports no new fills and hands nothing downstream. Hypotheses: the venue
list is newest first and the cursor id occurs in it. -/
theorem C4_poller_hands_fills_newer_than_cursor (fills : List SrcFill) (lid : ℕ)
    (hsorted : List.Pairwise (fun a b => b.execId < a.execId) fills)
    (hmem : lid ∈ fills.map SrcFill.execId) :
    (pollCore fills (some lid)).2.2
      = (fills.filter (fun f => decide (lid < f.execId))).reverse
    ∧ List.Pairwise (fun a b => a.execId < b.execId) (pollCore fills (some lid)).2.2
    ∧ (∀ f0, fills.head? = some f0 → f0.execId = lid →
        pollCore fills (some lid) = (false, none, [])) := by
  have htw := takeWhile_cursor_eq_filter hsorted hmem
  have hmain : (pollCore fills (some lid)).2.2
      = (fills.filter (fun f => decide (lid < f.execId))).reverse := by
    cases fills with
    | nil => exact absurd hmem (by simp)
    | cons f rest =>
      by_cases hemp :
          ((f :: rest).takeWhile (fun g => g.execId != lid)).isEmpty = true
      · have hnil : (f :: rest).takeWhile (fun g => g.execId != lid) = [] := by
          simpa [List.isEmpty_iff] using hemp
        have hfil : (f :: rest).filter (fun g => decide (lid < g.execId)) = [] :=
          htw.symm.trans hnil
        simp [pollCore, hemp, hfil]
      · have hemp2 : ¬ (((f :: rest).filter
            (fun g => decide (lid < g.execId))).isEmpty = true) := by
          rw [← htw]
          exact hemp
        simp only [pollCore]
        rw [htw, if_neg hemp2]
  refine ⟨hmain, ?_, ?_⟩
  · rw [hmain]
    rw [List.pairwise_reverse]
    exact List.Pairwise.filter _ hsorted
  · intro f0 h0 heq
    cases fills with
    | nil => exact absurd h0 (by simp)
    | cons f rest =>
      have hf : f = f0 := by injection h0
      subst hf
      have hstop : (f.execId != lid) = false := by simp [heq]
      simp [pollCore, List.takeWhile, hstop]

/-- Witness for C4: with cursor 5 and the newest-first list of ids 8, 7, 5, 3
the pass hands the fills 7 then 8, and a list headed by the cursor id hands
nothing. -/
theorem C4_poller_hands_fills_newer_than_cursor_witness :
    (pollCore
        [⟨8, [], [], 1, 0, strTrade⟩, ⟨7, [], [], 1, 0, strTrade⟩,
         ⟨5, [], [], 1, 0, strTrade⟩, ⟨3, [], [], 1, 0, strTrade⟩] (some 5)).2.2
      = [⟨7, [], [], 1, 0, strTrade⟩, ⟨8, [], [], 1, 0, strTrade⟩] := by
  have h := C4_poller_hands_fills_newer_than_cursor
    [⟨8, [], [], 1, 0, strTrade⟩, ⟨7, [], [], 1, 0, strTrade⟩,
     ⟨5, [], [], 1, 0, strTrade⟩, ⟨3, [], [], 1, 0, strTrade⟩] 5
    (by norm_num) (by norm_num)
  rw [h.1]
  decide

/-- With an accepting venue and no stop currently set, the tier loop selects
the first tier whose rounded candidate price is positive. -/
theorem slTierLoop_accepting (side : Str) (entry size tick : ℚ) :
    ∀ ts : List ℚ,
      slTierLoop (fun _ => SlResp.ok) none side entry size tick ts
        = (ts.find? (fun t => decide (0 < slCandidate side entry size tick t))).map
            (fun t => (t, slCandidate side entry size tick t)) := by
  intro ts
  induction ts with
  | nil => rfl
  | cons t ts ih =>
    by_cases hq : slCandidate side entry size tick t ≤ 0
    · have hfind : decide (0 < slCandidate side entry size tick t) = false :=
        decide_eq_false (not_lt.mpr hq)
      simp [slTierLoop, List.find?, hq, hfind, ih]
    · have hfind : decide (0 < slCandidate side entry size tick t) = true :=
        decide_eq_true (not_le.mp hq)
      simp [slTierLoop, List.find?, hq, hfind]

/-- Claim C3: for a position with positive entry price, positive quantity, a
side and an ordered loss-tier list, the stop-loss calculator walks the tiers
in order with candidate price entry minus tierLoss/qty for Buy and entry plus
tierLoss/qty for Sell, rounded to the tick size down for Buy and up for Sell,
skips every tier whose candidate is non-positive, and (with the venue
accepting and no stop already in place) returns the tier and price of the
first tier with a positive candidate, or none when no tier has one. -/
theorem C3_sl_calculator_first_positive_tier (side : Str)
    (entry size tick : ℚ) (tiers : List ℚ)
    (hentry : 0 < entry) (hsize : 0 < size) (htick : 0 < tick)
    (hne : tiers ≠ []) :
    checkAndSetSl (fun _ => SlResp.ok) none side entry size tick tiers
      = (tiers.find? (fun t => decide (0 < slCandidate side entry size tick t))).map
          (fun t => (t, slCandidate side entry size tick t)) := by
  have hguard : ¬ (size ≤ 0 ∨ tiers = []) := by
    push_neg
    exact ⟨hsize, hne⟩
  have hloop := slTierLoop_accepting side entry size tick tiers
  simp only [checkAndSetSl, if_neg hguard]
  exact hloop

/-- Witness for C3: Buy at entry 50000 with quantity 0.1, tick 1 and tier
list [50] yields the stop 50000 - 50/0.1 = 49500 from the 50 tier. -/
theorem C3_sl_calculator_first_positive_tier_witness :
    checkAndSetSl (fun _ => SlResp.ok) none strBuy 50000 (1 / 10) 1 [50]
      = some (50, 49500) := by
  have h := C3_sl_calculator_first_positive_tier strBuy 50000 (1 / 10) 1 [50]
    (by norm_num) (by norm_num) (by norm_num) (by simp)
  have hc : slCandidate strBuy 50000 (1 / 10) 1 50 = 49500 := by
    simp only [slCandidate, eq_self_iff_true, if_true]
    have h1 : ((50000 : ℚ) - |(-(|(50 : ℚ)|))| / (1 / 10)) / 1 = 49500 := by
      rw [abs_neg, abs_abs, abs_of_nonneg (by norm_num : (0 : ℚ) ≤ 50)]
      norm_num
    rw [h1]
    have h2 : truncQ (49500 : ℚ) = 49500 := by
      unfold truncQ qfloor
      norm_num
    rw [h2]
    norm_num
  have hpred : decide (0 < slCandidate strBuy 50000 (1 / 10) 1 50) = true := by
    rw [hc]
    norm_num
  have hfind : List.find?
      (fun t => decide (0 < slCandidate strBuy 50000 (1 / 10) 1 t)) [50] = some 50 := by
    simp only [List.find?]
    rw [hpred]
  rw [h, hfind]
  simp only [Option.map_some']
  rw [hc]

/-- Steps that only touch the temporary or backup file never change the
target file. -/
theorem target_preserved_of_tempOps :
    ∀ (l : List FsOp) (fs : Fs),
      (∀ op ∈ l, op = FsOp.copyBackup ∨ op = FsOp.createTemp ∨
        ∃ c, op = FsOp.writeTemp c) →
      (runOps fs l).target = fs.target := by
  intro l
  induction l with
  | nil =>
    intro fs _
    rfl
  | cons op rest ih =>
    intro fs hops
    have hop := hops op (List.mem_cons_self _ _)
    have hrest := fun o ho => hops o (List.mem_cons_of_mem _ ho)
    have hstep : (applyOp fs op).target = fs.target := by
      rcases hop with h | h | ⟨c, h⟩ <;> subst h <;> rfl
    calc (runOps fs (op :: rest)).target
        = (runOps (applyOp fs op) rest).target := rfl
      _ = (applyOp fs op).target := ih _ hrest
      _ = fs.target := hstep

/-- Streaming a document into the temporary file appends it there and leaves
the other files alone. -/
theorem runOps_writeTemp (d : Doc) :
    ∀ (fs : Fs) (s : Doc),
      runOps { fs with temp := some s } (d.map FsOp.writeTemp)
        = { fs with temp := some (s ++ d) } := by
  induction d with
  | nil =>
    intro fs s
    simp [runOps]
  | cons c d ih =>
    intro fs s
    calc runOps { fs with temp := some s } ((c :: d).map FsOp.writeTemp)
        = runOps { fs with temp := some (s ++ [c]) } (d.map FsOp.writeTemp) := rfl
      _ = { fs with temp := some ((s ++ [c]) ++ d) } := ih fs (s ++ [c])
      _ = { fs with temp := some (s ++ c :: d) } := by simp

/-- Claim C2, amended: every save that goes through save_json_file is atomic:
whatever prefix of its steps has run when a crash happens, the target file
holds either the old document or the complete new one. (The state document of
StateManager.save does not go through this path; see the counterexample.) -/
theorem C2_amended_save_json_file_atomic (bk te : Bool) (doc : Doc) (fs : Fs)
    (n : ℕ) :
    (runOps fs (List.take n (saveJsonFileOps bk te doc))).target = fs.target
    ∨ (runOps fs (List.take n (saveJsonFileOps bk te doc))).target = some doc := by
  have hsave : saveJsonFileOps bk te doc
      = ((if bk && te then [FsOp.copyBackup] else [])
          ++ (FsOp.createTemp :: doc.map FsOp.writeTemp)) ++ [FsOp.renameTemp] := by
    simp [saveJsonFileOps]
  set pre := (if bk && te then [FsOp.copyBackup] else [])
      ++ (FsOp.createTemp :: doc.map FsOp.writeTemp) with hpre
  by_cases hn : n ≤ pre.length
  · left
    have htake : List.take n (pre ++ [FsOp.renameTemp]) = List.take n pre := by
      rw [List.take_append_eq_append_take]
      have h0 : n - pre.length = 0 := by omega
      simp [h0]
    rw [hsave, htake]
    apply target_preserved_of_tempOps
    intro op hop
    have hop2 : op ∈ pre := List.take_subset _ _ hop
    rcases List.mem_append.mp hop2 with h1 | h2
    · left
      by_cases hb : (bk && te) = true
      · simp [hb] at h1
        exact h1
      · simp [hb] at h1
    · rcases List.mem_cons.mp h2 with h3 | h4
      · right
        left
        exact h3
      · right
        right
        rcases List.mem_map.mp h4 with ⟨c, _, hc⟩
        exact ⟨c, hc.symm⟩
  · right
    have htake : List.take n (pre ++ [FsOp.renameTemp]) = pre ++ [FsOp.renameTemp] := by
      apply List.take_of_length_le
      simp only [List.length_append, List.length_cons, List.length_nil]
      omega
    have hsplit : runOps fs (pre ++ [FsOp.renameTemp])
        = applyOp (runOps fs pre) FsOp.renameTemp := by
      simp [runOps, List.foldl_append]
    have htemp : (runOps fs pre).temp = some doc := by
      by_cases hb : (bk && te) = true
      · have hfs1 : runOps fs pre
            = runOps { { fs with backup := fs.target } with temp := some [] }
              (doc.map FsOp.writeTemp) := by
          rw [hpre, hb]
          rfl
        rw [hfs1, runOps_writeTemp]
        rfl
      · have hb2 : (bk && te) = false := by
          simp only [Bool.not_eq_true] at hb
          exact hb
        have hfs1 : runOps fs pre
            = runOps { fs with temp := some [] } (doc.map FsOp.writeTemp) := by
          rw [hpre, hb2]
          rfl
        rw [hfs1, runOps_writeTemp]
        rfl
    rw [hsave, htake, hsplit]
    simp [applyOp, htemp]

/-- Counterexample for C2: StateManager.save streams the document directly
into the target file, so with old content ab and new document xyz a crash
after the second step leaves the target holding x, which is neither the old
nor the new document. -/
theorem C2_counterexample_direct_save_partial :
    (runOps ⟨some (String.toList "ab"), none, none⟩
        (List.take 2 (stateManagerSaveOps (String.toList "xyz")))).target
      ≠ some (String.toList "ab")
    ∧ (runOps ⟨some (String.toList "ab"), none, none⟩
        (List.take 2 (stateManagerSaveOps (String.toList "xyz")))).target
      ≠ some (String.toList "xyz") := by
  decide

/-- Claim C5 (code bug evidence): the deep-sync call in copyer.main passes
config_data and state_manager positionally plus the keyword pending_actions,
but check_positions_sync as defined in modules/sync_checker.py accepts only
(config_data, data_dir, sync_trigger); the call does not bind (Python raises
TypeError), so no discrepancy filtering against peek_pending_actions ever
runs. -/
theorem C5_deep_sync_call_does_not_bind :
    callBindsOk checkPositionsSyncParams copyerDeepSyncPositional
      copyerDeepSyncKwargs = false := by
  decide

/-- Counterexample for C6: with multiplier 1 and quantity precision 1, a live
position of 0.5 against a destination position of 0.4 on the same
(symbol, side) has differing quantities, yet check_positions_sync reports no
discrepancy, because the deviation equals one quantum and the size-mismatch
test requires a deviation strictly greater than one quantum. -/
theorem C6_counterexample_one_quantum_not_mismatch :
    computeDiscrepancies 1 1
        (snapKeyed [⟨String.toList "BTCUSDT", strBuy, 1 / 2⟩])
        (snapKeyed [⟨String.toList "BTCUSDT", strBuy, 2 / 5⟩])
      = []
    ∧ (2 / 5 : ℚ) ≠ 1 / 2 := by
  constructor
  · have hsL : snapKeyed [⟨String.toList "BTCUSDT", strBuy, 1 / 2⟩]
        = [(posKey ⟨String.toList "BTCUSDT", strBuy, 1 / 2⟩,
            ⟨String.toList "BTCUSDT", strBuy, 1 / 2⟩)] := by
      simp [snapKeyed, show (0 : ℚ) < 1 / 2 by norm_num]
    have hsD : snapKeyed [⟨String.toList "BTCUSDT", strBuy, 2 / 5⟩]
        = [(posKey ⟨String.toList "BTCUSDT", strBuy, 2 / 5⟩,
            ⟨String.toList "BTCUSDT", strBuy, 2 / 5⟩)] := by
      simp [snapKeyed, show (0 : ℚ) < 2 / 5 by norm_num]
    have hexp : quantizeHE 1 ((1 : ℚ) / 2 * 1) = 1 / 2 := by
      unfold quantizeHE roundHalfEvenQ qfloor
      norm_num
    have habs : |(2 / 5 : ℚ) - 1 / 2| = 1 / 10 := by
      rw [show (2 / 5 : ℚ) - 1 / 2 = -(1 / 10) by norm_num, abs_neg,
        abs_of_nonneg (by norm_num : (0 : ℚ) ≤ 1 / 10)]
    have hcond : ¬ (quantum 1 < |(2 / 5 : ℚ) - quantizeHE 1 ((1 : ℚ) / 2 * 1)|) := by
      rw [hexp, habs]
      unfold quantum
      norm_num
    rw [hsL, hsD]
    simp only [computeDiscrepancies, List.filterMap, alookup_cons, posKey,
      eq_self_iff_true, if_true]
    rw [if_neg hcond]
    rfl
  · norm_num

/-- Entries of a keyed snapshot carry their own key and come from a position
with positive size. -/
theorem snapKeyed_mem {ps : List PosEntry} {kv : Str × PosEntry}
    (h : kv ∈ snapKeyed ps) :
    kv.1 = posKey kv.2 ∧ kv.2 ∈ ps ∧ 0 < kv.2.size := by
  unfold snapKeyed at h
  rcases List.mem_map.mp h with ⟨q, hq, hqe⟩
  rcases List.mem_filter.mp hq with ⟨hqm, hqs⟩
  subst hqe
  exact ⟨rfl, hqm, by simpa using hqs⟩

/-- Claim C6, amended: for every (symbol, side) present in the snapshots, the
reconciler classifies the pair as missing_on_demo when only the source has
it, extra_on_demo when only the destination has it, and size_mismatch when
both have it and the destination quantity deviates from
quantize(sourceQty times multiplier) by strictly more than one quantum of the
quantity precision; a deviation of at most one quantum yields no discrepancy
for that pair. An extra_on_demo discrepancy is healed by a single reduce-only
close of the full destination quantity. -/
theorem C6_amended_classification (mult : ℚ) (p : ℕ) (demoMode : Str)
    (ls ds : List PosEntry)
    (hndL : ((snapKeyed ls).map Prod.fst).Nodup)
    (hndD : ((snapKeyed ds).map Prod.fst).Nodup) :
    (∀ k lp, alookup (snapKeyed ls) k = some lp →
      alookup (snapKeyed ds) k = none →
      (⟨DiscType.missingOnDemo, lp.symbol, lp.side,
          some (quantizeHE p (lp.size * mult)), none⟩ : Disc)
        ∈ computeDiscrepancies mult p (snapKeyed ls) (snapKeyed ds))
    ∧ (∀ k dp, alookup (snapKeyed ds) k = some dp →
      alookup (snapKeyed ls) k = none →
      (⟨DiscType.extraOnDemo, dp.symbol, dp.side, none, some dp.size⟩ : Disc)
        ∈ computeDiscrepancies mult p (snapKeyed ls) (snapKeyed ds))
    ∧ (∀ k lp dp, alookup (snapKeyed ls) k = some lp →
      alookup (snapKeyed ds) k = some dp →
      quantum p < |dp.size - quantizeHE p (lp.size * mult)| →
      (⟨DiscType.sizeMismatch, lp.symbol, lp.side,
          some (quantizeHE p (lp.size * mult)), some (quantizeHE p dp.size)⟩ : Disc)
        ∈ computeDiscrepancies mult p (snapKeyed ls) (snapKeyed ds))
    ∧ (∀ k lp dp, alookup (snapKeyed ls) k = some lp →
      alookup (snapKeyed ds) k = some dp →
      |dp.size - quantizeHE p (lp.size * mult)| ≤ quantum p →
      ∀ d ∈ computeDiscrepancies mult p (snapKeyed ls) (snapKeyed ds),
        ¬ (d.symbol = lp.symbol ∧ d.side = lp.side))
    ∧ (∀ (sym sd : Str) (q : ℚ),
      healOrder demoMode p ⟨DiscType.extraOnDemo, sym, sd, none, some q⟩
        = some ⟨sym, flipSide sd, q, true, strMarket,
            determinePositionIdx demoMode sd⟩) := by
  refine ⟨?_, ?_, ?_, ?_, ?_⟩
  · intro k lp hL hD
    apply List.mem_append_left
    apply List.mem_filterMap.mpr
    refine ⟨(k, lp), mem_of_alookup_some hL, ?_⟩
    simp only [hD]
  · intro k dp hD hL
    apply List.mem_append_right
    apply List.mem_filterMap.mpr
    refine ⟨(k, dp), mem_of_alookup_some hD, ?_⟩
    simp only [hL]
  · intro k lp dp hL hD hgt
    apply List.mem_append_left
    apply List.mem_filterMap.mpr
    refine ⟨(k, lp), mem_of_alookup_some hL, ?_⟩
    simp only [hD, if_pos hgt]
  · intro k lp dp hL hD htol d hd hmatch
    obtain ⟨hdsym, hdside⟩ := hmatch
    have hkey : k = posKey lp := (snapKeyed_mem (mem_of_alookup_some hL)).1
    rcases List.mem_append.mp hd with hleft | hright
    · rcases List.mem_filterMap.mp hleft with ⟨kv, hkv, hf⟩
      have hkv1 : kv.1 = posKey kv.2 := (snapKeyed_mem hkv).1
      have hfields : d.symbol = kv.2.symbol ∧ d.side = kv.2.side := by
        rcases hdl : alookup (snapKeyed ds) kv.1 with _ | dp2
        · simp only [hdl] at hf
          injection hf with hdisc
          rw [← hdisc]
          exact ⟨rfl, rfl⟩
        · simp only [hdl] at hf
          by_cases hc : quantum p < |dp2.size - quantizeHE p (kv.2.size * mult)|
          · rw [if_pos hc] at hf
            injection hf with hdisc
            rw [← hdisc]
            exact ⟨rfl, rfl⟩
          · rw [if_neg hc] at hf
            exact absurd hf (by simp)
      have hsame : posKey kv.2 = posKey lp := by
        unfold posKey
        rw [← hfields.1, ← hfields.2, hdsym, hdside]
      have hkveq : kv.1 = k := by rw [hkv1, hsame, hkey]
      have hlp2 : alookup (snapKeyed ls) kv.1 = some kv.2 := by
        have hkvpair : (kv.1, kv.2) ∈ snapKeyed ls := by
          simpa using hkv
        exact alookup_of_mem_nodup hndL hkvpair
      have hlpeq : kv.2 = lp := by
        rw [hkveq, hL] at hlp2
        injection hlp2 with h
        exact h.symm
      have hdl2 : alookup (snapKeyed ds) kv.1 = some dp := by rw [hkveq, hD]
      simp only [hdl2, hlpeq] at hf
      rw [if_neg (not_lt.mpr htol)] at hf
      exact absurd hf (by simp)
    · rcases List.mem_filterMap.mp hright with ⟨kv, hkv, hg⟩
      have hkv1 : kv.1 = posKey kv.2 := (snapKeyed_mem hkv).1
      rcases hll : alookup (snapKeyed ls) kv.1 with _ | lp2
      · have hfields : d.symbol = kv.2.symbol ∧ d.side = kv.2.side := by
          simp only [hll] at hg
          injection hg with hdisc
          rw [← hdisc]
          exact ⟨rfl, rfl⟩
        have hsame : posKey kv.2 = posKey lp := by
          unfold posKey
          rw [← hfields.1, ← hfields.2, hdsym, hdside]
        have hkveq : kv.1 = k := by rw [hkv1, hsame, hkey]
        rw [hkveq] at hll
        exact absurd (hL.symm.trans hll) (by simp)
      · simp only [hll] at hg
        exact absurd hg (by simp)
  · intro sym sd q
    rfl

/-- Witness for C6 (amended): a live BTCUSDT Buy position of size 1 with no
destination position is classified missing_on_demo. -/
theorem C6_amended_classification_witness :
    (⟨DiscType.missingOnDemo, String.toList "BTCUSDT", strBuy,
        some (quantizeHE 0 ((1 : ℚ) * 1)), none⟩ : Disc)
      ∈ computeDiscrepancies 1 0
          (snapKeyed [⟨String.toList "BTCUSDT", strBuy, 1⟩]) (snapKeyed []) := by
  have h := (C6_amended_classification 1 0 []
    [⟨String.toList "BTCUSDT", strBuy, 1⟩] [] (by decide) (by decide)).1
  exact h (posKey ⟨String.toList "BTCUSDT", strBuy, 1⟩)
    ⟨String.toList "BTCUSDT", strBuy, 1⟩ (by decide) (by decide)

end Copytrader
